import Mathlib

/-!
Verification of the trading-bot simulation and risk-enforcement engine.

Shallow embedding of the JavaScript sources:
  * `src/trading-bot/src/engines/portfolio.js`   (Portfolio ledger)
  * the RiskManager module (sizing, stops, halts, drawdown)
  * the Backtester module (per-bar position processing, trading costs)
  * `src/trading-bot/src/engines/trading-engine.js` (live tick position loop)

JavaScript numbers are modelled as exact rationals (`ℚ`); wall-clock day
markers are modelled as abstract `Nat` values passed in as inputs; the
randomly generated position id is modelled as an injected `Nat` argument.
-/

/-- Position side: `'BUY'` (long) or `'SELL'` (short). -/
inductive Side
  | buy
  | sell
deriving DecidableEq

/-- Exit reasons used by the engine when closing a position. -/
inductive ExitReason
  | staleClose
  | trailHit
  | stopHit
  | targetHit
  | endOfRun
deriving DecidableEq

/-- An open position, as created by `Portfolio.openPosition`.
`value` is the entry cost (`entryPrice * quantity` at open, updated on a
half-close); `halfTaken` models the `_partialTaken` flag; `entryBar`
models `_entryBar` (set by the backtester right after open). -/
structure Position where
  id : Nat
  side : Side
  entryPrice : ℚ
  quantity : ℚ
  value : ℚ
  stopLoss : ℚ
  takeProfit : ℚ
  trailingStop : ℚ
  halfTaken : Bool
  entryBar : Nat
deriving DecidableEq

/-- A closed trade record (the position's fields plus exit data),
as pushed onto `tradeHistory` by `closePosition`. -/
structure Trade where
  id : Nat
  side : Side
  entryPrice : ℚ
  quantity : ℚ
  value : ℚ
  exitPrice : ℚ
  pnl : ℚ
  pnlPct : ℚ
  exitReason : ExitReason
deriving DecidableEq

/-- The Portfolio ledger state: cash balance, initial balance,
open positions (in insertion order) and the ordered trade history. -/
structure Portfolio where
  balance : ℚ
  initialBalance : ℚ
  positions : List Position
  tradeHistory : List Trade
deriving DecidableEq

/-- Realized/unrealized P&L of one position at a given price:
`(current − entry) * qty` for a long, `(entry − current) * qty` for a short. -/
def pnlOf (side : Side) (entryPrice currentPrice quantity : ℚ) : ℚ :=
  match side with
  | Side.buy => (currentPrice - entryPrice) * quantity
  | Side.sell => (entryPrice - currentPrice) * quantity

/-- Embeds `Portfolio.openPosition`: rejects (returning the unchanged ledger and
`none`) when the entry cost exceeds the balance; otherwise debits the
balance by the cost and appends a new position whose trailing stop starts
at the stop-loss.  The generated id is injected as `newId`. -/
def openPosition (pf : Portfolio) (newId : Nat) (side : Side)
    (price quantity stopLoss takeProfit : ℚ) (entryBar : Nat) :
    Portfolio × Option Position :=
  let cost := price * quantity
  if pf.balance < cost then (pf, none)
  else
    let position : Position :=
      { id := newId
        side := side
        entryPrice := price
        quantity := quantity
        value := cost
        stopLoss := stopLoss
        takeProfit := takeProfit
        trailingStop := stopLoss
        halfTaken := false
        entryBar := entryBar }
    ({ pf with
        balance := pf.balance - cost
        positions := pf.positions ++ [position] }, some position)

/-- Models `positions.findIndex` followed by `positions.splice(idx, 1)`:
removes the first position whose id matches, returning it and the
remaining list, or `none` when no position matches. -/
def removeById (ps : List Position) (positionId : Nat) :
    Option (Position × List Position) :=
  match ps with
  | [] => none
  | p :: rest =>
    if p.id = positionId then some (p, rest)
    else
      match removeById rest positionId with
      | none => none
      | some (q, rest') => some (q, p :: rest')

/-- Result of a successful `closePosition`: the trade record and the pnl. -/
structure CloseResult where
  trade : Trade
  pnl : ℚ
deriving DecidableEq

/-- Embeds `Portfolio.closePosition`: returns the unchanged ledger and `none` when
no open position matches the id; otherwise removes the position, computes
the side-dependent P&L at the close price, credits the balance by
`value + pnl`, and appends one trade record. -/
def closePosition (pf : Portfolio) (positionId : Nat) (currentPrice : ℚ)
    (reason : ExitReason) : Portfolio × Option CloseResult :=
  match removeById pf.positions positionId with
  | none => (pf, none)
  | some (position, rest) =>
    let pnl := pnlOf position.side position.entryPrice currentPrice position.quantity
    let pnlPct := pnl / position.value * 100
    let trade : Trade :=
      { id := position.id
        side := position.side
        entryPrice := position.entryPrice
        quantity := position.quantity
        value := position.value
        exitPrice := currentPrice
        pnl := pnl
        pnlPct := pnlPct
        exitReason := reason }
    ({ pf with
        balance := pf.balance + position.value + pnl
        positions := rest
        tradeHistory := pf.tradeHistory ++ [trade] }, some ⟨trade, pnl⟩)

/-- Embeds `Portfolio.getTotalValue`: balance plus, for each open position, its
entry cost plus unrealized P&L at the given mark price. -/
def getTotalValue (pf : Portfolio) (currentPrice : ℚ) : ℚ :=
  pf.balance +
    (pf.positions.map
      (fun p => p.value + pnlOf p.side p.entryPrice currentPrice p.quantity)).sum

/-- Removing a position by id splits the mapped sum of the position list
into the removed position's contribution plus the rest. -/
theorem removeById_map_sum (f : Position → ℚ) :
    ∀ (ps : List Position) (pid : Nat) (p : Position) (rest : List Position),
      removeById ps pid = some (p, rest) →
      (ps.map f).sum = f p + (rest.map f).sum := by
  intro ps
  induction ps with
  | nil => intro pid p rest h; simp [removeById] at h
  | cons q qs ih =>
    intro pid p rest h
    by_cases hq : q.id = pid
    · simp [removeById, hq] at h
      obtain ⟨hp, hrest⟩ := h
      subst hp; subst hrest
      simp
    · simp only [removeById, if_neg hq] at h
      cases hrec : removeById qs pid with
      | none => rw [hrec] at h; simp at h
      | some pr =>
        obtain ⟨p', rest'⟩ := pr
        rw [hrec] at h
        simp only [Option.some.injEq, Prod.mk.injEq] at h
        obtain ⟨hp, hrest⟩ := h
        have hqs := ih pid p' rest' hrec
        rw [← hp, ← hrest]
        simp [hqs]
        ring

/-- C1: closing an open position computes the side-dependent P&L
(`(exit − entry) * qty` for LONG, `(entry − exit) * qty` for SHORT),
credits the balance by exactly `value + pnl` (entry cost plus P&L),
removes that position from the open list, and appends exactly one trade. -/
theorem closePosition_correct (pf : Portfolio) (pid : Nat) (price : ℚ)
    (reason : ExitReason) (p : Position) (rest : List Position)
    (h : removeById pf.positions pid = some (p, rest)) :
    ∃ cr : CloseResult,
      closePosition pf pid price reason =
        ({ pf with
            balance := pf.balance + p.value + cr.pnl
            positions := rest
            tradeHistory := pf.tradeHistory ++ [cr.trade] }, some cr) ∧
      cr.pnl = pnlOf p.side p.entryPrice price p.quantity ∧
      (p.side = Side.buy → cr.pnl = (price - p.entryPrice) * p.quantity) ∧
      (p.side = Side.sell → cr.pnl = (p.entryPrice - price) * p.quantity) ∧
      cr.trade.pnl = cr.pnl ∧
      cr.trade.exitPrice = price ∧
      cr.trade.exitReason = reason := by
  refine ⟨⟨{ id := p.id, side := p.side, entryPrice := p.entryPrice,
             quantity := p.quantity, value := p.value, exitPrice := price,
             pnl := pnlOf p.side p.entryPrice price p.quantity,
             pnlPct := pnlOf p.side p.entryPrice price p.quantity / p.value * 100,
             exitReason := reason },
           pnlOf p.side p.entryPrice price p.quantity⟩, ?_, rfl, ?_, ?_, rfl, rfl, rfl⟩
  · simp [closePosition, h]
  · intro hs; simp [pnlOf, hs]
  · intro hs; simp [pnlOf, hs]

/-- Witness ledger for concrete checks: balance 1000 with one open long. -/
def posW : Position :=
  { id := 1, side := Side.buy, entryPrice := 100, quantity := 2, value := 200,
    stopLoss := 98, takeProfit := 104, trailingStop := 98,
    halfTaken := false, entryBar := 0 }

/-- Witness ledger with one open position. -/
def pfW : Portfolio :=
  { balance := 1000, initialBalance := 1200, positions := [posW],
    tradeHistory := [] }

/-- Witness for C1 at a concrete ledger: closing the long at 102. -/
theorem closePosition_correct_witness :
    ∃ cr : CloseResult,
      closePosition pfW 1 102 ExitReason.targetHit =
        ({ pfW with
            balance := pfW.balance + posW.value + cr.pnl
            positions := []
            tradeHistory := pfW.tradeHistory ++ [cr.trade] }, some cr) ∧
      cr.pnl = pnlOf posW.side posW.entryPrice 102 posW.quantity ∧
      (posW.side = Side.buy → cr.pnl = (102 - posW.entryPrice) * posW.quantity) ∧
      (posW.side = Side.sell → cr.pnl = (posW.entryPrice - 102) * posW.quantity) ∧
      cr.trade.pnl = cr.pnl ∧
      cr.trade.exitPrice = 102 ∧
      cr.trade.exitReason = ExitReason.targetHit :=
  closePosition_correct pfW 1 102 ExitReason.targetHit posW []
    (by simp [pfW, posW, removeById])

/-- C2: rejected ledger operations leave the ledger unchanged: an open
whose entry cost exceeds the balance returns the input state and `none`,
and a close whose id matches no open position returns the input state and
`none`. -/
theorem rejected_ops_unchanged (pf : Portfolio) (newId : Nat) (side : Side)
    (price quantity stopLoss takeProfit : ℚ) (entryBar : Nat)
    (pid : Nat) (closePrice : ℚ) (reason : ExitReason) :
    (pf.balance < price * quantity →
      openPosition pf newId side price quantity stopLoss takeProfit entryBar =
        (pf, none)) ∧
    (removeById pf.positions pid = none →
      closePosition pf pid closePrice reason = (pf, none)) := by
  constructor
  · intro h
    simp [openPosition, h]
  · intro h
    simp [closePosition, h]

/-- Witness for C2: an over-sized open and a close with an unknown id both
return the unchanged concrete ledger. -/
theorem rejected_ops_unchanged_witness :
    openPosition pfW 7 Side.buy 100 20 98 104 0 = (pfW, none) ∧
    closePosition pfW 99 50 ExitReason.staleClose = (pfW, none) :=
  ⟨(rejected_ops_unchanged pfW 7 Side.buy 100 20 98 104 0 99 50
      ExitReason.staleClose).1 (by norm_num [pfW]),
   (rejected_ops_unchanged pfW 7 Side.buy 100 20 98 104 0 99 50
      ExitReason.staleClose).2 (by simp [pfW, removeById, posW])⟩

/-- C9: closing any open position at the current mark price leaves total
equity unchanged: the balance is credited exactly the `value + pnl`
contribution the removed position made to `getTotalValue`. -/
theorem closePosition_preserves_totalValue (pf : Portfolio) (pid : Nat)
    (price : ℚ) (reason : ExitReason) (p : Position) (rest : List Position)
    (h : removeById pf.positions pid = some (p, rest)) :
    getTotalValue (closePosition pf pid price reason).1 price =
      getTotalValue pf price := by
  have hsum := removeById_map_sum
    (fun q => q.value + pnlOf q.side q.entryPrice price q.quantity)
    pf.positions pid p rest h
  simp [closePosition, h, getTotalValue, hsum]
  ring

/-- Witness for C9 at the concrete ledger: closing the long at mark 103. -/
theorem closePosition_preserves_totalValue_witness :
    getTotalValue (closePosition pfW 1 103 ExitReason.trailHit).1 103 =
      getTotalValue pfW 103 :=
  closePosition_preserves_totalValue pfW 1 103 ExitReason.trailHit posW []
    (by simp [pfW, posW, removeById])

/-- Embeds `RiskManager.updateTrailingStop`: for a long, ratchet the stop up to
`max(old, price * (1 - trailPct))`; for a short, down to
`min(old, price * (1 + trailPct))`.  `trailingStopPct` is the configured
percentage (divided by 100 inside, as in the source). -/
def updateTrailingStop (trailingStopPct currentPrice currentStop : ℚ)
    (side : Side) : ℚ :=
  let trailPct := trailingStopPct / 100
  match side with
  | Side.buy => max currentStop (currentPrice * (1 - trailPct))
  | Side.sell => min currentStop (currentPrice * (1 + trailPct))

/-- A single long trailing-stop update never lowers the stop. -/
theorem updateTrailingStop_buy_le (pct price stop : ℚ) :
    stop ≤ updateTrailingStop pct price stop Side.buy :=
  le_max_left _ _

/-- A single short trailing-stop update never raises the stop. -/
theorem updateTrailingStop_sell_le (pct price stop : ℚ) :
    updateTrailingStop pct price stop Side.sell ≤ stop :=
  min_le_left _ _

/-- Folding long trailing-stop updates over any price sequence never
lowers the stop. -/
theorem foldl_trailingStop_buy_le (pct : ℚ) :
    ∀ (prices : List ℚ) (stop : ℚ),
      stop ≤ prices.foldl (fun s q => updateTrailingStop pct q s Side.buy) stop := by
  intro prices
  induction prices with
  | nil => intro stop; simp
  | cons p ps ih =>
    intro stop
    calc stop ≤ updateTrailingStop pct p stop Side.buy :=
          updateTrailingStop_buy_le pct p stop
      _ ≤ _ := by simpa using ih (updateTrailingStop pct p stop Side.buy)

/-- Folding short trailing-stop updates over any price sequence never
raises the stop. -/
theorem foldl_trailingStop_sell_le (pct : ℚ) :
    ∀ (prices : List ℚ) (stop : ℚ),
      prices.foldl (fun s q => updateTrailingStop pct q s Side.sell) stop ≤ stop := by
  intro prices
  induction prices with
  | nil => intro stop; simp
  | cons p ps ih =>
    intro stop
    calc (p :: ps).foldl (fun s q => updateTrailingStop pct q s Side.sell) stop
        = ps.foldl (fun s q => updateTrailingStop pct q s Side.sell)
            (updateTrailingStop pct p stop Side.sell) := by simp
      _ ≤ updateTrailingStop pct p stop Side.sell :=
          ih (updateTrailingStop pct p stop Side.sell)
      _ ≤ stop := updateTrailingStop_sell_le pct p stop

/-- C3: the trailing-stop update returns `max(old, price * (1 − trailPct))`
for a long and `min(old, price * (1 + trailPct))` for a short, so the long
stop never decreases and the short stop never increases over any sequence
of updates. -/
theorem updateTrailingStop_ratchet (pct price stop : ℚ) (prices : List ℚ) :
    updateTrailingStop pct price stop Side.buy =
      max stop (price * (1 - pct / 100)) ∧
    updateTrailingStop pct price stop Side.sell =
      min stop (price * (1 + pct / 100)) ∧
    stop ≤ updateTrailingStop pct price stop Side.buy ∧
    updateTrailingStop pct price stop Side.sell ≤ stop ∧
    stop ≤ prices.foldl (fun s q => updateTrailingStop pct q s Side.buy) stop ∧
    prices.foldl (fun s q => updateTrailingStop pct q s Side.sell) stop ≤ stop :=
  ⟨rfl, rfl, updateTrailingStop_buy_le pct price stop,
   updateTrailingStop_sell_le pct price stop,
   foldl_trailingStop_buy_le pct prices stop,
   foldl_trailingStop_sell_le pct prices stop⟩

/-- Reason a trading halt was set (`''`, `'daily_loss'`, `'max_drawdown'`). -/
inductive HaltReason
  | noHalt
  | dailyLoss
  | maxDrawdown
deriving DecidableEq

/-- RiskManager state: same-day P&L, the stored day marker, the peak
balance, and the halt flag/reason.  Day markers are abstract `Nat`s. -/
structure RiskState where
  dailyPnL : ℚ
  dailyResetDate : Nat
  peakBalance : ℚ
  halted : Bool
  haltReason : HaltReason
deriving DecidableEq

/-- Embeds `RiskManager.checkDayRollover`: on a day change, reset daily P&L,
store the new day marker, reset the peak balance to the current balance
when one is supplied and positive, and lift the halt only when its reason
is `daily_loss`.  The wall-clock day is passed in as `today`; the
optional balance models the JS argument that may be `undefined`. -/
def checkDayRollover (rs : RiskState) (today : Nat)
    (currentBalance : Option ℚ) : RiskState :=
  if today ≠ rs.dailyResetDate then
    let rs1 := { rs with dailyPnL := 0, dailyResetDate := today }
    let rs2 :=
      match currentBalance with
      | some b => if 0 < b then { rs1 with peakBalance := b } else rs1
      | none => rs1
    if rs2.haltReason = HaltReason.dailyLoss then
      { rs2 with halted := false, haltReason := HaltReason.noHalt }
    else rs2
  else rs

/-- A `max_drawdown` halt survives one rollover call, whether or not the
day changed. -/
theorem checkDayRollover_keeps_drawdown_halt (rs : RiskState) (today : Nat)
    (cb : Option ℚ) (hh : rs.halted = true)
    (hr : rs.haltReason = HaltReason.maxDrawdown) :
    (checkDayRollover rs today cb).halted = true ∧
    (checkDayRollover rs today cb).haltReason = HaltReason.maxDrawdown := by
  by_cases hd : today ≠ rs.dailyResetDate
  · cases cb with
    | none => simp [checkDayRollover, hd, hr, hh]
    | some b =>
      by_cases hb : (0 : ℚ) < b <;> simp [checkDayRollover, hd, hr, hh, hb]
  · simp [checkDayRollover, hd, hh, hr]

/-- C4: a day change zeroes the daily P&L and lifts the halt exactly when
the reason is `daily_loss`; no day change leaves the state untouched; a
`max_drawdown` halt survives any sequence of rollover calls. -/
theorem checkDayRollover_halt_rules (rs : RiskState) (today : Nat)
    (cb : Option ℚ) (events : List (Nat × Option ℚ)) :
    (today ≠ rs.dailyResetDate →
      (checkDayRollover rs today cb).dailyPnL = 0 ∧
      (checkDayRollover rs today cb).halted =
        (if rs.haltReason = HaltReason.dailyLoss then false else rs.halted) ∧
      (checkDayRollover rs today cb).haltReason =
        (if rs.haltReason = HaltReason.dailyLoss then HaltReason.noHalt
         else rs.haltReason)) ∧
    (today = rs.dailyResetDate → checkDayRollover rs today cb = rs) ∧
    (rs.halted = true → rs.haltReason = HaltReason.maxDrawdown →
      (events.foldl (fun s e => checkDayRollover s e.1 e.2) rs).halted = true ∧
      (events.foldl (fun s e => checkDayRollover s e.1 e.2) rs).haltReason =
        HaltReason.maxDrawdown) := by
  refine ⟨?_, ?_, ?_⟩
  · intro hne
    by_cases hr : rs.haltReason = HaltReason.dailyLoss
    · cases cb with
      | none => simp [checkDayRollover, hne, hr]
      | some b => by_cases hb : (0 : ℚ) < b <;> simp [checkDayRollover, hne, hr, hb]
    · cases cb with
      | none => simp [checkDayRollover, hne, hr]
      | some b => by_cases hb : (0 : ℚ) < b <;> simp [checkDayRollover, hne, hr, hb]
  · intro he
    simp [checkDayRollover, he]
  · intro hh hr
    induction events generalizing rs with
    | nil => exact ⟨hh, hr⟩
    | cons e es ih =>
      have step := checkDayRollover_keeps_drawdown_halt rs e.1 e.2 hh hr
      simpa using ih (checkDayRollover rs e.1 e.2) step.1 step.2

/-- Concrete risk state halted for a daily loss, for witnesses. -/
def rsDL : RiskState :=
  { dailyPnL := -300, dailyResetDate := 10, peakBalance := 1000,
    halted := true, haltReason := HaltReason.dailyLoss }

/-- Witness for C4: rolling over a `daily_loss` halt to a new day zeroes
the daily P&L and lifts the halt. -/
theorem checkDayRollover_halt_rules_witness :
    (checkDayRollover rsDL 11 (some 900)).dailyPnL = 0 ∧
    (checkDayRollover rsDL 11 (some 900)).halted =
      (if rsDL.haltReason = HaltReason.dailyLoss then false else rsDL.halted) ∧
    (checkDayRollover rsDL 11 (some 900)).haltReason =
      (if rsDL.haltReason = HaltReason.dailyLoss then HaltReason.noHalt
       else rsDL.haltReason) :=
  (checkDayRollover_halt_rules rsDL 11 (some 900) []).1 (by simp [rsDL])

/-- Embeds `RiskManager.canOpenPosition`: refuse when halted, refuse when the
open-position count has reached the configured maximum, else permit. -/
def canOpenPosition (halted : Bool) (maxOpenPositions openPositionCount : Nat) :
    Bool :=
  if halted then false
  else if maxOpenPositions ≤ openPositionCount then false
  else true

/-- C8: the admission check refuses whenever the count has reached the
maximum (independent of the halt flag), refuses whenever halted
(independent of the count), and permits exactly when not halted and the
count is strictly below the maximum. -/
theorem canOpenPosition_spec (halted : Bool) (maxOpen count : Nat) :
    (maxOpen ≤ count → canOpenPosition halted maxOpen count = false) ∧
    (halted = true → canOpenPosition halted maxOpen count = false) ∧
    (canOpenPosition halted maxOpen count = true ↔
      halted = false ∧ count < maxOpen) := by
  refine ⟨?_, ?_, ?_⟩
  · intro h
    cases halted <;> simp [canOpenPosition, h]
  · intro h
    rw [h]
    simp [canOpenPosition]
  · cases halted
    · by_cases h : maxOpen ≤ count <;> simp [canOpenPosition, h] <;> omega
    · simp [canOpenPosition]

/-- Witness for C8: with the maximum reached and no halt, admission is
refused. -/
theorem canOpenPosition_spec_witness :
    canOpenPosition false 3 3 = false :=
  (canOpenPosition_spec false 3 3).1 (le_refl 3)

/-- State threaded through the max-drawdown replay in
`Portfolio.getSummary`: the running peak, the running balance, and the
maximum drawdown seen so far. -/
structure DDState where
  peak : ℚ
  running : ℚ
  maxDD : ℚ
deriving DecidableEq

/-- One step of the max-drawdown replay: add the trade P&L to the running
balance, raise the peak if exceeded, and record
`(peak − running) / peak * 100` when it exceeds the maximum so far. -/
def ddStep (st : DDState) (pnl : ℚ) : DDState :=
  let running := st.running + pnl
  let peak := if st.peak < running then running else st.peak
  let dd := (peak - running) / peak * 100
  { peak := peak, running := running,
    maxDD := if st.maxDD < dd then dd else st.maxDD }

/-- The `maxDrawdown` figure of `Portfolio.getSummary`: replay the trade
P&L sequence against a running peak starting at the initial balance. -/
def summaryMaxDrawdown (initialBalance : ℚ) (pnls : List ℚ) : ℚ :=
  (pnls.foldl ddStep
    { peak := initialBalance, running := initialBalance, maxDD := 0 }).maxDD

/-- The drawdown percentage computed inside `RiskManager.recordPnL`,
after the peak has been raised to the current balance if exceeded. -/
def recordPnLDrawdownPct (peakBalance currentBalance : ℚ) : ℚ :=
  let peak := if peakBalance < currentBalance then currentBalance else peakBalance
  (peak - currentBalance) / peak * 100

/-- Embeds `RiskManager.recordPnL`: accumulate same-day P&L, raise the peak
balance, set a `daily_loss` halt when the daily loss limit is breached,
then set a `max_drawdown` halt when the drawdown reaches the limit. -/
def recordPnL (initialBalance maxDailyLossPct maxDrawdownLimit : ℚ)
    (rs : RiskState) (pnl currentBalance : ℚ) : RiskState :=
  let rs1 := { rs with dailyPnL := rs.dailyPnL + pnl }
  let rs2 :=
    if rs1.peakBalance < currentBalance then
      { rs1 with peakBalance := currentBalance }
    else rs1
  let dailyLossLimit := initialBalance * (maxDailyLossPct / 100)
  let rs3 :=
    if rs2.dailyPnL < -dailyLossLimit then
      { rs2 with halted := true, haltReason := HaltReason.dailyLoss }
    else rs2
  let drawdownPct := recordPnLDrawdownPct rs.peakBalance currentBalance
  if maxDrawdownLimit ≤ drawdownPct then
    { rs3 with halted := true, haltReason := HaltReason.maxDrawdown }
  else rs3

/-- All running balances along a P&L sequence stay non-negative. -/
def cumNonneg : ℚ → List ℚ → Prop
  | _, [] => True
  | r, p :: rest => 0 ≤ r + p ∧ cumNonneg (r + p) rest

/-- Counterexample to C7 as stated: with initial balance 100 and a single
trade losing 200, the summary max drawdown is 200, outside `[0, 100]`;
likewise the risk-policy drawdown at peak 100 and balance −100 is 200. -/
theorem drawdown_out_of_range_cex :
    summaryMaxDrawdown 100 [-200] = 200 ∧
    ¬ summaryMaxDrawdown 100 [-200] ≤ 100 ∧
    recordPnLDrawdownPct 100 (-100) = 200 ∧
    ¬ recordPnLDrawdownPct 100 (-100) ≤ 100 := by
  norm_num [summaryMaxDrawdown, ddStep, recordPnLDrawdownPct]

/-- The max-drawdown accumulator never decreases along the replay. -/
theorem ddStep_foldl_maxDD_le :
    ∀ (l : List ℚ) (st : DDState), st.maxDD ≤ (l.foldl ddStep st).maxDD := by
  intro l
  induction l with
  | nil => intro st; simp
  | cons p ps ih =>
    intro st
    have hstep : st.maxDD ≤ (ddStep st p).maxDD := by
      simp only [ddStep]
      split
      · split
        next hm => exact le_of_lt hm
        next _ => exact le_refl _
      · split
        next hm => exact le_of_lt hm
        next _ => exact le_refl _
    calc st.maxDD ≤ (ddStep st p).maxDD := hstep
      _ ≤ _ := by simpa using ih (ddStep st p)

/-- The replayed max drawdown stays at most 100 as long as the peak is
positive, the running balance is below the peak, and every running
balance along the remaining P&L sequence is non-negative. -/
theorem ddStep_foldl_maxDD_le_100 :
    ∀ (l : List ℚ) (st : DDState), 0 < st.peak → st.running ≤ st.peak →
      st.maxDD ≤ 100 → cumNonneg st.running l →
      (l.foldl ddStep st).maxDD ≤ 100 := by
  intro l
  induction l with
  | nil => intro st _ _ h _; simpa using h
  | cons p ps ih =>
    intro st hpeak hrun hmax hcum
    obtain ⟨hnn, hcum'⟩ := hcum
    have hrun' : (ddStep st p).running = st.running + p := rfl
    have hpeak' : 0 < (ddStep st p).peak := by
      simp only [ddStep]
      split
      · linarith
      · exact hpeak
    have hle : (ddStep st p).running ≤ (ddStep st p).peak := by
      simp only [ddStep]
      split
      · linarith
      · linarith [not_lt.mp (by assumption)]
    have key : ∀ pk rn m : ℚ, 0 < pk → 0 ≤ rn → rn ≤ pk → m ≤ 100 →
        (if m < (pk - rn) / pk * 100 then (pk - rn) / pk * 100 else m) ≤ 100 := by
      intro pk rn m hpk hrn hle hm
      split
      · have h1 : (pk - rn) / pk ≤ 1 := (div_le_one hpk).mpr (by linarith)
        calc (pk - rn) / pk * 100 ≤ 1 * 100 :=
              mul_le_mul_of_nonneg_right h1 (by norm_num)
          _ = 100 := by norm_num
      · exact hm
    have hmax' : (ddStep st p).maxDD ≤ 100 := by
      simp only [ddStep]
      split
      next hc => exact key _ _ _ (by linarith) hnn (le_refl _) hmax
      next hc => exact key _ _ _ hpeak hnn (le_of_not_lt hc) hmax
    have hcum'' : cumNonneg (ddStep st p).running ps := by
      rw [hrun']; exact hcum'
    simpa using ih (ddStep st p) hpeak' hle hmax' hcum''

/-- C7 amended: both drawdown figures are always non-negative, and stay
at most 100 provided the replayed running balance never goes negative
(for the summary, starting from a positive initial balance) and the
current balance is non-negative (for the risk policy, with a positive
stored peak).  As stated, the upper bound fails once a balance goes
negative (see the counterexample). -/
theorem drawdown_in_range_amended (initB : ℚ) (pnls : List ℚ)
    (peak cur : ℚ) (h1 : 0 < initB) (h2 : cumNonneg initB pnls)
    (h3 : 0 < peak) (h4 : 0 ≤ cur) :
    (0 ≤ summaryMaxDrawdown initB pnls ∧ summaryMaxDrawdown initB pnls ≤ 100) ∧
    (0 ≤ recordPnLDrawdownPct peak cur ∧ recordPnLDrawdownPct peak cur ≤ 100) := by
  refine ⟨⟨?_, ?_⟩, ⟨?_, ?_⟩⟩
  · have h := ddStep_foldl_maxDD_le pnls
      { peak := initB, running := initB, maxDD := 0 }
    simpa [summaryMaxDrawdown] using h
  · exact ddStep_foldl_maxDD_le_100 pnls
      { peak := initB, running := initB, maxDD := 0 } h1 (le_refl _)
      (by norm_num) h2
  · simp only [recordPnLDrawdownPct]
    split
    next hc =>
      have h0 : (0 : ℚ) < cur := lt_trans h3 hc
      have : (0 : ℚ) ≤ (cur - cur) / cur := by simp
      nlinarith [this]
    next hc =>
      have hnum : (0 : ℚ) ≤ peak - cur := by linarith [le_of_not_lt hc]
      have := div_nonneg hnum (le_of_lt h3)
      nlinarith [this]
  · simp only [recordPnLDrawdownPct]
    split
    next hc =>
      have h0 : (0 : ℚ) < cur := lt_trans h3 hc
      have : (cur - cur) / cur = 0 := by simp
      rw [this]
      norm_num
    next hc =>
      have hq : (peak - cur) / peak ≤ 1 := (div_le_one h3).mpr (by linarith)
      calc (peak - cur) / peak * 100 ≤ 1 * 100 :=
            mul_le_mul_of_nonneg_right hq (by norm_num)
        _ = 100 := by norm_num

/-- Witness for the amended C7 at a concrete history and balances. -/
theorem drawdown_in_range_amended_witness :
    (0 ≤ summaryMaxDrawdown 100 [-30, 10] ∧
      summaryMaxDrawdown 100 [-30, 10] ≤ 100) ∧
    (0 ≤ recordPnLDrawdownPct 100 80 ∧ recordPnLDrawdownPct 100 80 ≤ 100) :=
  drawdown_in_range_amended 100 [-30, 10] 100 80 (by norm_num)
    (by norm_num [cumNonneg]) (by norm_num) (by norm_num)

/-- Trading-cost configuration of the backtester, in basis points. -/
structure TradingCosts where
  slippageBps : ℚ
  spreadBps : ℚ
  commissionBps : ℚ
  stopSlippageBps : ℚ
deriving DecidableEq

/-- Embeds `Backtester._applyExitCost`: worsen the exit fill by slippage, half
spread and commission, plus the extra stop slippage on stop fills: a long
receives less, a short pays more. -/
def applyExitCost (costs : TradingCosts) (price : ℚ) (side : Side)
    (isStopLoss : Bool) : ℚ :=
  let extra := if isStopLoss then costs.stopSlippageBps else 0
  let totalBps := costs.slippageBps + costs.spreadBps + costs.commissionBps + extra
  let costMult := totalBps / 10000
  match side with
  | Side.buy => price * (1 - costMult)
  | Side.sell => price * (1 + costMult)

/-- Embeds `Backtester._applyEntryCost`: worsen the entry fill by slippage, half
spread and commission: a long pays more, a short receives less. -/
def applyEntryCost (costs : TradingCosts) (price : ℚ) (side : Side) : ℚ :=
  let totalBps := costs.slippageBps + costs.spreadBps + costs.commissionBps
  let costMult := totalBps / 10000
  match side with
  | Side.buy => price * (1 + costMult)
  | Side.sell => price * (1 - costMult)

/-- The backtester configuration fields consumed by the per-position
exit handling. -/
structure BTConfig where
  costs : TradingCosts
  takeProfitPct : ℚ
  trailingStopPct : ℚ
  maxBarsInTrade : Nat
deriving DecidableEq

/-- The half profit-take block of `Backtester.run`: when no half-close has
been taken and the price has covered half the take-profit distance, close
half the quantity at the cost-adjusted price, credit the proportional
entry cost plus the half P&L (returned as the balance delta), halve the
quantity, recompute the notional, set the flag, move the stop-loss to
breakeven and ratchet the trailing stop toward entry. -/
def halfTakeStep (cfg : BTConfig) (price : ℚ) (pos : Position) :
    Position × ℚ :=
  if pos.halfTaken then (pos, 0)
  else
    match pos.side with
    | Side.buy =>
      if pos.entryPrice * (1 + cfg.takeProfitPct / 100 * (1 / 2)) ≤ price then
        let halfQty := pos.quantity * (1 / 2)
        let exitPrice := applyExitCost cfg.costs price pos.side false
        let halfPnl := (exitPrice - pos.entryPrice) * halfQty
        ({ pos with
            quantity := pos.quantity - halfQty
            value := pos.entryPrice * (pos.quantity - halfQty)
            halfTaken := true
            stopLoss := pos.entryPrice
            trailingStop := max pos.trailingStop pos.entryPrice },
         pos.entryPrice * halfQty + halfPnl)
      else (pos, 0)
    | Side.sell =>
      if price ≤ pos.entryPrice * (1 - cfg.takeProfitPct / 100 * (1 / 2)) then
        let halfQty := pos.quantity * (1 / 2)
        let exitPrice := applyExitCost cfg.costs price pos.side false
        let halfPnl := (pos.entryPrice - exitPrice) * halfQty
        ({ pos with
            quantity := pos.quantity - halfQty
            value := pos.entryPrice * (pos.quantity - halfQty)
            halfTaken := true
            stopLoss := pos.entryPrice
            trailingStop := min pos.trailingStop pos.entryPrice },
         pos.entryPrice * halfQty + halfPnl)
      else (pos, 0)

/-- C5: when no half-close has yet been taken, the position's notional is
consistent (`value = entry * qty`), and the bar price has covered half
the configured take-profit distance, the half profit-take leaves exactly
half the original quantity, halves the notional, credits
`entry * halfQty` plus the half P&L at the cost-adjusted exit price, sets
the flag, moves the stop-loss to entry and ratchets the trailing stop. -/
theorem halfTakeStep_spec (cfg : BTConfig) (price : ℚ) (pos : Position)
    (hflag : pos.halfTaken = false)
    (hval : pos.value = pos.entryPrice * pos.quantity) :
    (pos.side = Side.buy →
      pos.entryPrice * (1 + cfg.takeProfitPct / 100 * (1 / 2)) ≤ price →
      (halfTakeStep cfg price pos).1.quantity = pos.quantity * (1 / 2) ∧
      (halfTakeStep cfg price pos).1.value = pos.value * (1 / 2) ∧
      (halfTakeStep cfg price pos).1.halfTaken = true ∧
      (halfTakeStep cfg price pos).1.stopLoss = pos.entryPrice ∧
      (halfTakeStep cfg price pos).1.trailingStop =
        max pos.trailingStop pos.entryPrice ∧
      (halfTakeStep cfg price pos).2 =
        pos.entryPrice * (pos.quantity * (1 / 2)) +
          pnlOf pos.side pos.entryPrice
            (applyExitCost cfg.costs price pos.side false)
            (pos.quantity * (1 / 2))) ∧
    (pos.side = Side.sell →
      price ≤ pos.entryPrice * (1 - cfg.takeProfitPct / 100 * (1 / 2)) →
      (halfTakeStep cfg price pos).1.quantity = pos.quantity * (1 / 2) ∧
      (halfTakeStep cfg price pos).1.value = pos.value * (1 / 2) ∧
      (halfTakeStep cfg price pos).1.halfTaken = true ∧
      (halfTakeStep cfg price pos).1.stopLoss = pos.entryPrice ∧
      (halfTakeStep cfg price pos).1.trailingStop =
        min pos.trailingStop pos.entryPrice ∧
      (halfTakeStep cfg price pos).2 =
        pos.entryPrice * (pos.quantity * (1 / 2)) +
          pnlOf pos.side pos.entryPrice
            (applyExitCost cfg.costs price pos.side false)
            (pos.quantity * (1 / 2))) := by
  constructor
  · intro hs hcond
    simp only [halfTakeStep, hflag, Bool.false_eq_true, if_false, hs,
      if_pos hcond]
    refine ⟨by ring, by rw [hval]; ring, trivial, trivial, trivial, ?_⟩
    simp only [pnlOf, hs]
  · intro hs hcond
    simp only [halfTakeStep, hflag, Bool.false_eq_true, if_false, hs,
      if_pos hcond]
    refine ⟨by ring, by rw [hval]; ring, trivial, trivial, trivial, ?_⟩
    simp only [pnlOf, hs]

/-- Zero-cost configuration for witnesses. -/
def cfgW : BTConfig :=
  { costs := { slippageBps := 3, spreadBps := 2, commissionBps := 10,
               stopSlippageBps := 8 },
    takeProfitPct := 4, trailingStopPct := 2, maxBarsInTrade := 100 }

/-- Long position before any half-close, for witnesses. -/
def posHW : Position :=
  { id := 2, side := Side.buy, entryPrice := 100, quantity := 2, value := 200,
    stopLoss := 98, takeProfit := 104, trailingStop := 98,
    halfTaken := false, entryBar := 0 }

/-- Witness for C5: the half take fires at price 103 on the long. -/
theorem halfTakeStep_spec_witness :
    (halfTakeStep cfgW 103 posHW).1.quantity = posHW.quantity * (1 / 2) ∧
    (halfTakeStep cfgW 103 posHW).1.value = posHW.value * (1 / 2) ∧
    (halfTakeStep cfgW 103 posHW).1.halfTaken = true ∧
    (halfTakeStep cfgW 103 posHW).1.stopLoss = posHW.entryPrice ∧
    (halfTakeStep cfgW 103 posHW).1.trailingStop =
      max posHW.trailingStop posHW.entryPrice ∧
    (halfTakeStep cfgW 103 posHW).2 =
      posHW.entryPrice * (posHW.quantity * (1 / 2)) +
        pnlOf posHW.side posHW.entryPrice
          (applyExitCost cfgW.costs 103 posHW.side false)
          (posHW.quantity * (1 / 2)) :=
  (halfTakeStep_spec cfgW 103 posHW (by simp [posHW])
      (by norm_num [posHW])).1 (by simp [posHW]) (by norm_num [posHW, cfgW])

/-- Embeds `RiskManager.checkExitConditions`: for a long, stop-loss fires on
`price ≤ stop` before take-profit on `price ≥ target`; mirrored for a
short. -/
def checkExitConditions (pos : Position) (price : ℚ) : Option ExitReason :=
  match pos.side with
  | Side.buy =>
    if price ≤ pos.stopLoss then some ExitReason.stopHit
    else if pos.takeProfit ≤ price then some ExitReason.targetHit
    else none
  | Side.sell =>
    if pos.stopLoss ≤ price then some ExitReason.stopHit
    else if price ≤ pos.takeProfit then some ExitReason.targetHit
    else none

/-- The trailing-breach test of the bar loop: for a long,
`price ≤ trailingStop`; for a short, `price ≥ trailingStop`. -/
def trailingHitB (pos : Position) (price : ℚ) : Bool :=
  match pos.side with
  | Side.buy => decide (price ≤ pos.trailingStop)
  | Side.sell => decide (pos.trailingStop ≤ price)

/-- Whether the bar price breaches the stop-loss level, per side. -/
def stopBreached (pos : Position) (price : ℚ) : Bool :=
  match pos.side with
  | Side.buy => decide (price ≤ pos.stopLoss)
  | Side.sell => decide (pos.stopLoss ≤ price)

/-- The position after the half profit-take block and the trailing-stop
update, as it stands when the bar loop reaches the trailing-breach test. -/
def posAfterTrail (cfg : BTConfig) (price : ℚ) (pos : Position) : Position :=
  let pos1 := (halfTakeStep cfg price pos).1
  { pos1 with trailingStop :=
      updateTrailingStop cfg.trailingStopPct price pos1.trailingStop pos1.side }

/-- Outcome of one position's exit handling within one bar: the updated
position, whether it is still open, the closes performed (reason and
cost-adjusted exit price), and the balance credit of a half take. -/
structure StepResult where
  pos : Position
  stillOpen : Bool
  closes : List (ExitReason × ℚ)
  balanceDelta : ℚ
deriving DecidableEq

/-- The per-position body of the bar loop in `Backtester.run`: the stale
timeout check, then the half profit-take, then the trailing-stop update
and breach check (guarded by `trailingStop ≠ stopLoss`), then the
stop-loss/take-profit check; each triggered full close ends the body. -/
def processPosition (cfg : BTConfig) (barIndex : Nat) (price : ℚ)
    (pos : Position) : StepResult :=
  if cfg.maxBarsInTrade ≤ barIndex - pos.entryBar then
    { pos := pos, stillOpen := false,
      closes := [(ExitReason.staleClose,
        applyExitCost cfg.costs price pos.side false)],
      balanceDelta := 0 }
  else
    let pos2 := posAfterTrail cfg price pos
    let delta := (halfTakeStep cfg price pos).2
    if trailingHitB pos2 price = true ∧ pos2.trailingStop ≠ pos2.stopLoss then
      { pos := pos2, stillOpen := false,
        closes := [(ExitReason.trailHit,
          applyExitCost cfg.costs price pos2.side false)],
        balanceDelta := delta }
    else
      match checkExitConditions pos2 price with
      | some r =>
        { pos := pos2, stillOpen := false,
          closes := [(r, applyExitCost cfg.costs price pos2.side
            (decide (r = ExitReason.stopHit)))],
          balanceDelta := delta }
      | none =>
        { pos := pos2, stillOpen := true, closes := [], balanceDelta := delta }

/-- The position after the trailing-stop update in `TradingEngine.tick`
(the live loop has no timeout and no half profit-take). -/
def livePosAfterTrail (tsPct price : ℚ) (pos : Position) : Position :=
  { pos with trailingStop :=
      updateTrailingStop tsPct price pos.trailingStop pos.side }

/-- The per-position body of `TradingEngine.tick`: trailing update, the
guarded trailing-breach close, then the stop-loss/take-profit check. -/
def liveProcessPosition (tsPct price : ℚ) (pos : Position) :
    Position × Option ExitReason :=
  let pos2 := livePosAfterTrail tsPct price pos
  if trailingHitB pos2 price = true ∧ pos2.trailingStop ≠ pos2.stopLoss then
    (pos2, some ExitReason.trailHit)
  else
    match checkExitConditions pos2 price with
    | some r => (pos2, some r)
    | none => (pos2, none)

/-- C6: within one bar, a position performs at most one full close; it
stays open exactly when no close fires; a reached timeout closes with the
stale reason before any other check runs; otherwise the trailing-breach
check (after the half take and the trailing update) takes precedence over
the stop-loss/take-profit check, and when neither fires the position
stays open (a half take alone never closes the position). -/
theorem processPosition_exit_precedence (cfg : BTConfig) (barIndex : Nat)
    (price : ℚ) (pos : Position) :
    (processPosition cfg barIndex price pos).closes.length ≤ 1 ∧
    ((processPosition cfg barIndex price pos).stillOpen = true ↔
      (processPosition cfg barIndex price pos).closes = []) ∧
    (cfg.maxBarsInTrade ≤ barIndex - pos.entryBar →
      processPosition cfg barIndex price pos =
        { pos := pos, stillOpen := false,
          closes := [(ExitReason.staleClose,
            applyExitCost cfg.costs price pos.side false)],
          balanceDelta := 0 }) ∧
    (barIndex - pos.entryBar < cfg.maxBarsInTrade →
      (trailingHitB (posAfterTrail cfg price pos) price = true ∧
          (posAfterTrail cfg price pos).trailingStop ≠
            (posAfterTrail cfg price pos).stopLoss →
        (processPosition cfg barIndex price pos).closes =
          [(ExitReason.trailHit,
            applyExitCost cfg.costs price (posAfterTrail cfg price pos).side
              false)]) ∧
      (¬(trailingHitB (posAfterTrail cfg price pos) price = true ∧
          (posAfterTrail cfg price pos).trailingStop ≠
            (posAfterTrail cfg price pos).stopLoss) →
        (checkExitConditions (posAfterTrail cfg price pos) price = none →
          (processPosition cfg barIndex price pos).closes = [] ∧
          (processPosition cfg barIndex price pos).stillOpen = true) ∧
        (∀ r, checkExitConditions (posAfterTrail cfg price pos) price = some r →
          (processPosition cfg barIndex price pos).closes =
            [(r, applyExitCost cfg.costs price
                (posAfterTrail cfg price pos).side
                (decide (r = ExitReason.stopHit)))]))) := by
  refine ⟨?_, ?_, ?_, ?_⟩
  · by_cases ht : cfg.maxBarsInTrade ≤ barIndex - pos.entryBar
    · simp [processPosition, ht]
    · by_cases htr : trailingHitB (posAfterTrail cfg price pos) price = true ∧
          (posAfterTrail cfg price pos).trailingStop ≠
            (posAfterTrail cfg price pos).stopLoss
      · simp [processPosition, ht, htr]
      · cases hce : checkExitConditions (posAfterTrail cfg price pos) price with
        | none => simp [processPosition, ht, htr, hce]
        | some r => simp [processPosition, ht, htr, hce]
  · by_cases ht : cfg.maxBarsInTrade ≤ barIndex - pos.entryBar
    · simp [processPosition, ht]
    · by_cases htr : trailingHitB (posAfterTrail cfg price pos) price = true ∧
          (posAfterTrail cfg price pos).trailingStop ≠
            (posAfterTrail cfg price pos).stopLoss
      · simp [processPosition, ht, htr]
      · cases hce : checkExitConditions (posAfterTrail cfg price pos) price with
        | none => simp [processPosition, ht, htr, hce]
        | some r => simp [processPosition, ht, htr, hce]
  · intro ht
    simp [processPosition, ht]
  · intro hlt
    have ht : ¬ cfg.maxBarsInTrade ≤ barIndex - pos.entryBar := not_le.mpr hlt
    constructor
    · intro htr
      simp [processPosition, ht, htr.1, htr.2]
    · intro htr
      refine ⟨?_, ?_⟩
      · intro hce
        constructor <;> simp [processPosition, ht, htr, hce]
      · intro r hr
        simp [processPosition, ht, htr, hr]

/-- Witness for C6: with the holding timeout reached, the bar body closes
the position with the stale reason. -/
theorem processPosition_exit_precedence_witness :
    processPosition cfgW 150 103 posHW =
      { pos := posHW, stillOpen := false,
        closes := [(ExitReason.staleClose,
          applyExitCost cfgW.costs 103 posHW.side false)],
        balanceDelta := 0 } :=
  (processPosition_exit_precedence cfgW 150 103 posHW).2.2.1
    (by simp [cfgW, posHW])

/-- A breached stop-loss level makes the stop/take-profit check fire with
the stop reason (checked before take-profit, on either side). -/
theorem stopBreached_checkExit (pos : Position) (price : ℚ)
    (h : stopBreached pos price = true) :
    checkExitConditions pos price = some ExitReason.stopHit := by
  cases hs : pos.side <;> simp [stopBreached, hs] at h <;>
    simp [checkExitConditions, hs, h]

/-- C10: while the trailing stop still equals the stop-loss at the breach
check, a breach is never closed as a trailing-stop hit: the guarded
trailing branch is skipped, the breach falls through to the
stop-loss/take-profit check, and the backtester prices the fill as a stop
fill (extra stop slippage); the live tick behaves the same way. -/
theorem trailEq_guard_stop_fill (cfg : BTConfig) (barIndex : Nat)
    (price : ℚ) (pos : Position) (tsPct : ℚ)
    (hnt : barIndex - pos.entryBar < cfg.maxBarsInTrade)
    (heq : (posAfterTrail cfg price pos).trailingStop =
      (posAfterTrail cfg price pos).stopLoss)
    (hbr : stopBreached (posAfterTrail cfg price pos) price = true)
    (heqL : (livePosAfterTrail tsPct price pos).trailingStop =
      (livePosAfterTrail tsPct price pos).stopLoss)
    (hbrL : stopBreached (livePosAfterTrail tsPct price pos) price = true) :
    (processPosition cfg barIndex price pos).closes =
      [(ExitReason.stopHit,
        applyExitCost cfg.costs price (posAfterTrail cfg price pos).side
          true)] ∧
    (∀ ep : ℚ,
      (ExitReason.trailHit, ep) ∉ (processPosition cfg barIndex price pos).closes) ∧
    liveProcessPosition tsPct price pos =
      (livePosAfterTrail tsPct price pos, some ExitReason.stopHit) := by
  have ht : ¬ cfg.maxBarsInTrade ≤ barIndex - pos.entryBar := not_le.mpr hnt
  have htr : ¬(trailingHitB (posAfterTrail cfg price pos) price = true ∧
      (posAfterTrail cfg price pos).trailingStop ≠
        (posAfterTrail cfg price pos).stopLoss) := by
    rintro ⟨_, hne⟩
    exact hne heq
  have hce := stopBreached_checkExit (posAfterTrail cfg price pos) price hbr
  have htrL : ¬(trailingHitB (livePosAfterTrail tsPct price pos) price = true ∧
      (livePosAfterTrail tsPct price pos).trailingStop ≠
        (livePosAfterTrail tsPct price pos).stopLoss) := by
    rintro ⟨_, hne⟩
    exact hne heqL
  have hceL := stopBreached_checkExit (livePosAfterTrail tsPct price pos) price hbrL
  refine ⟨?_, ?_, ?_⟩
  · simp [processPosition, ht, htr, hce]
  · intro ep
    simp [processPosition, ht, htr, hce]
  · simp [liveProcessPosition, htrL, hceL]

/-- Position whose trailing stop still sits at the stop-loss, for the C10
witness. -/
def posT : Position :=
  { id := 3, side := Side.buy, entryPrice := 100, quantity := 1, value := 100,
    stopLoss := 98, takeProfit := 104, trailingStop := 98,
    halfTaken := true, entryBar := 0 }

/-- Witness for C10: at price 97 the long breaches its stop while the
trailing stop still equals it, and both loops close it as a stop fill. -/
theorem trailEq_guard_stop_fill_witness :
    (processPosition cfgW 1 97 posT).closes =
      [(ExitReason.stopHit,
        applyExitCost cfgW.costs 97 (posAfterTrail cfgW 97 posT).side true)] ∧
    (∀ ep : ℚ,
      (ExitReason.trailHit, ep) ∉ (processPosition cfgW 1 97 posT).closes) ∧
    liveProcessPosition 2 97 posT =
      (livePosAfterTrail 2 97 posT, some ExitReason.stopHit) :=
  trailEq_guard_stop_fill cfgW 1 97 posT 2
    (by simp [cfgW, posT])
    (by norm_num [posAfterTrail, halfTakeStep, posT, updateTrailingStop, cfgW])
    (by norm_num [stopBreached, posAfterTrail, halfTakeStep, posT,
      updateTrailingStop, cfgW])
    (by norm_num [livePosAfterTrail, posT, updateTrailingStop])
    (by norm_num [stopBreached, livePosAfterTrail, posT, updateTrailingStop])
